import Mathlib

/-! Verification of the VHDL address-map generator
(`scripts/pyXact_generator/ip_xact/vhdl_addr_generator.py`).

The generator walks a read-only IP-XACT style object tree (address maps,
address blocks, registers, fields, enumerated values, reset values) and
emits a sequence of rendering calls (declarations, comments, comment
rules, blank lines, includes, package boundaries) to a VHDL renderer.
The renderer itself (`VhdlGenerator`, `LanDeclaration`) is an external
collaborator; we model one rendering call as one `Emit` instruction and
each generator method as a pure function returning the list of
instructions it issues, in order.  Python integers are modelled as `Int`
(arbitrary precision); the one value produced by Python true division
(`baseAddress / range`) is modelled exactly as a rational.  Python's
`sorted(..., key=...)` is a stable sort by an integer key, modelled by
`sortByKey` (insertion sort, which is stable). -/

namespace Vhdl

/-- `enumeratedValue` entry of an enumerated-value set: a named discrete
value. -/
structure EnumeratedValue where
  name : String
  value : Int
  deriving DecidableEq

/-- An `enumeratedValues` set grouped under a field. -/
structure EnumeratedValueSet where
  name : String
  enumeratedValue : List EnumeratedValue
  deriving DecidableEq

/-- A reset literal bound to a field (`field.resets.reset.value`). -/
structure Reset where
  value : Int
  deriving DecidableEq

/-- The `resets` object of a field; its `reset` member may be absent. -/
structure Resets where
  reset : Option Reset
  deriving DecidableEq

/-- A bit field of a register.  `resets` may be absent altogether and
`enumeratedValues` may be empty. -/
structure Field where
  name : String
  bitOffset : Int
  bitWidth : Int
  resets : Option Resets
  enumeratedValues : List EnumeratedValueSet
  deriving DecidableEq

/-- A register of an address block. -/
structure Register where
  name : String
  description : String
  addressOffset : Int
  field : List Field
  deriving DecidableEq

/-- An address block of an address map. -/
structure AddressBlock where
  name : String
  baseAddress : Int
  range : Int
  register : List Register
  deriving DecidableEq

/-- An address map: a named collection of address blocks in document
order. -/
structure AddressMap where
  name : String
  addressBlock : List AddressBlock
  deriving DecidableEq

/-- One call issued to the VHDL renderer.  `decl` is a
`LanDeclaration` handed to `write_decl`; `comment` is `write_comment`
(text, gap, small flag, optional caption); `commLine` is
`write_comm_line` (with its optional `gap` argument, `none` meaning the
renderer's default); `nl` is `wr_nl`; `includes` is `create_includes`;
`packageStart`/`packageEnd` are `create_package` with `start=True` /
`start=False`. -/
inductive Emit where
  | decl (name : String) (value : ℚ) (typeTag : String) (bitWidth : Int)
      (kind : String) (alignCol : Int)
  | comment (text : String) (gap : Int) (small : Bool) (caption : Option String)
  | commLine (gap : Option Int)
  | nl
  | includes (libs : List String)
  | packageStart (name : String)
  | packageEnd (name : String)
  deriving DecidableEq

/-- Python's `sorted(l, key=key)`: a stable sort by an integer key
(insertion sort into an already-sorted suffix is stable). -/
def sortByKey {α : Type} (key : α → Int) (l : List α) : List α :=
  List.insertionSort (fun a b => key a ≤ key b) l

/-- The per-set declaration run of `write_reg_enums` (source lines
42-45): the constants emitted for one enumerated-value set of `field`,
sorted ascending by `value`, each named by the enumerated value's own
name and typed with the owning field's bit width. -/
def enumDecls (field : Field) (es : EnumeratedValueSet) : List Emit :=
  (sortByKey EnumeratedValue.value es.enumeratedValue).map (fun e =>
    Emit.decl e.name (e.value : ℚ) "std_logic" field.bitWidth "constant" 50)

/-- `write_reg_enums` (source lines 34-45): for a field with a non-empty
`enumeratedValues` collection, a blank line, a small comment, then one
constant per enumerated value of each set, each set sorted ascending by
`value`; an empty collection produces nothing. -/
def write_reg_enums (field : Field) : List Emit :=
  if field.enumeratedValues = [] then []
  else
    Emit.nl ::
    Emit.comment ("\"" ++ field.name ++ "\" field enumerated values") 2 true none ::
    field.enumeratedValues.flatMap (enumDecls field)

/-- `write_res_vals` (source lines 47-56): one `<field>_RSTVAL` constant
when `field.resets` and `field.resets.reset` are both present, nothing
otherwise. -/
def write_res_vals (field : Field) : List Emit :=
  match field.resets with
  | none => []
  | some rs =>
    match rs.reset with
    | none => []
    | some r =>
      [Emit.decl (field.name ++ "_RSTVAL") (r.value : ℚ) "std_logic"
        field.bitWidth "constant" 50]

/-- `write_reg_field` (source lines 59-74): low/high bit indices of the
field, both shifted by `(reg.addressOffset * 8) % busWidth`; a single
`_IND` constant when they coincide, else an `_L` and an `_H` constant. -/
def write_reg_field (busWidth : Int) (field : Field) (reg : Register) : List Emit :=
  let bitIndexL := field.bitOffset + (reg.addressOffset * 8) % busWidth
  let bitIndexH := field.bitOffset + field.bitWidth - 1 + (reg.addressOffset * 8) % busWidth
  (if bitIndexH = bitIndexL then [("_IND", bitIndexL)]
   else [("_L", bitIndexL), ("_H", bitIndexH)]).map (fun item =>
    Emit.decl (field.name ++ item.1) (item.2 : ℚ) "natural" field.bitWidth
      "constant" 50)

/-- `__write_reg` (source lines 77-100): register title comment, then
(switch-controlled) field position constants over fields sorted by
`bitOffset`, enum constants over fields in document order followed by a
blank line, a reset-values comment and the reset constants, and a
trailing blank line. -/
def __write_reg (busWidth : Int) (reg : Register)
    (writeFields writeEnums writeReset : Bool) : List Emit :=
  (Emit.comment reg.description 2 false (some (reg.name.toUpper ++ " register")) ::
    (if writeFields then
      (sortByKey Field.bitOffset reg.field).flatMap
        (fun field => write_reg_field busWidth field reg)
     else []))
  ++ (if writeEnums then reg.field.flatMap write_reg_enums ++ [Emit.nl] else [])
  ++ (if writeReset then
        Emit.comment (reg.name.toUpper ++ " register reset values") 2 true none ::
          reg.field.flatMap write_res_vals
      else [])
  ++ [Emit.nl]

/-- `write_regs` (source lines 103-105): all registers sorted by
`addressOffset`, each with all three switches enabled. -/
def write_regs (busWidth : Int) (regs : List Register) : List Emit :=
  (sortByKey Register.addressOffset regs).flatMap
    (fun reg => __write_reg busWidth reg true true true)

/-- `write_addrbl_head` (source lines 108-121): comment rule, block
title, rule, then the `<block>_BLOCK` constant whose value is the Python
true division `baseAddress / range` and whose bit width is the hardcoded
literal 4, then a blank line. -/
def write_addrbl_head (block : AddressBlock) : List Emit :=
  [Emit.commLine none,
   Emit.comment ("Address block: " ++ block.name) 2 false none,
   Emit.commLine none,
   Emit.decl (block.name ++ "_BLOCK")
     ((block.baseAddress : ℚ) / (block.range : ℚ)) "std_logic" 4 "constant" 80,
   Emit.nl]

/-- `write_addrbl_regs` (source lines 124-129): one `<register>_ADR`
constant per register, registers sorted by `addressOffset`, value
`addressOffset + baseAddress`, 12-bit `std_logic`. -/
def write_addrbl_regs (block : AddressBlock) : List Emit :=
  (sortByKey Register.addressOffset block.register).map (fun reg =>
    Emit.decl (reg.name ++ "_ADR")
      ((reg.addressOffset + block.baseAddress : Int) : ℚ) "std_logic" 12
      "constant" 80)

/-- `write_mem_map_addr` (source lines 132-137): the blocks of the
address map, each as head + register addresses + blank line, iterated in
document order (the `for` loop applies no sort to `addressBlock`). -/
def write_mem_map_addr (addrMap : AddressMap) : List Emit :=
  addrMap.addressBlock.flatMap (fun block =>
    write_addrbl_head block ++ write_addrbl_regs block ++ [Emit.nl])

/-- `write_mem_map_fields` (source lines 139-141). -/
def write_mem_map_fields (busWidth : Int) (fieldMap : AddressMap) : List Emit :=
  fieldMap.addressBlock.flatMap (fun block => write_regs busWidth block.register)

/-- `write_mem_map_both` (source lines 144-146): fields first, then
addresses. -/
def write_mem_map_both (busWidth : Int) (addrMap fieldMap : AddressMap) : List Emit :=
  write_mem_map_fields busWidth fieldMap ++ write_mem_map_addr addrMap

/-- The framing emitted by `create_addrMap_package` before the body
(source lines 151-170): blank line, rule, the map-naming comments (each
only when the corresponding map is present), the autogenerated warning,
rule, blank line, includes, blank line, package opening, blank line. -/
def packageHeader (addrMap fieldMap : Option AddressMap) (name : String) : List Emit :=
  [Emit.nl, Emit.commLine (some 0)]
  ++ (match addrMap with
      | some m => [Emit.comment ("Addresses map for: " ++ m.name) 0 true none]
      | none => [])
  ++ (match fieldMap with
      | some m => [Emit.comment ("Field map for: " ++ m.name) 0 true none]
      | none => [])
  ++ [Emit.comment "This file is autogenerated, DO NOT EDIT!" 0 true none,
      Emit.commLine (some 0), Emit.nl,
      Emit.includes ["std_logic_1164.all"], Emit.nl,
      Emit.packageStart name, Emit.nl]

/-- `create_addrMap_package` (source lines 149-175): header framing,
then — when present — the address map body, then — when present — the
field map body, then the package closing boundary. -/
def create_addrMap_package (addrMap fieldMap : Option AddressMap)
    (busWidth : Int) (name : String) : List Emit :=
  packageHeader addrMap fieldMap name
  ++ (match addrMap with
      | some m => write_mem_map_addr m
      | none => [])
  ++ (match fieldMap with
      | some m => write_mem_map_fields busWidth m
      | none => [])
  ++ [Emit.packageEnd name]

/-- One argument position of a Python call, for modelling the call
`self.__write_reg(self, reg, writeFields, writeEnums, writeRstVal)` made
by `write_reg` (source line 179). -/
inductive PyArg where
  | selfRef
  | regVal (r : Register)
  | boolVal (b : Bool)
  deriving DecidableEq

/-- Calling the bound method `__write_reg` with an explicit positional
argument list.  The method declares four parameters after the implicitly
bound `self` (source line 77), so Python raises a `TypeError` unless
exactly four positional arguments are supplied. -/
def call_write_reg_bound (busWidth : Int) (args : List PyArg) :
    Except String (List Emit) :=
  if args.length = 4 then
    match args with
    | [PyArg.regVal r, PyArg.boolVal wF, PyArg.boolVal wE, PyArg.boolVal wR] =>
      Except.ok (__write_reg busWidth r wF wE wR)
    | _ => Except.error "TypeError: argument does not bind"
  else
    Except.error "TypeError: __write_reg takes 5 positional arguments but 6 were given"

/-- `write_reg` (source lines 178-179): forwards to `__write_reg` but
passes `self` as an extra positional argument, so the bound call
receives five explicit arguments. -/
def write_reg (busWidth : Int) (reg : Register)
    (writeFields writeRstVal writeEnums : Bool) : Except String (List Emit) :=
  call_write_reg_bound busWidth
    [PyArg.selfRef, PyArg.regVal reg, PyArg.boolVal writeFields,
     PyArg.boolVal writeEnums, PyArg.boolVal writeRstVal]

/-- Observer: the texts of the `write_comment` calls of an emission
sequence, in order. -/
def commentTexts : List Emit → List String
  | [] => []
  | Emit.comment text _ _ _ :: rest => text :: commentTexts rest
  | _ :: rest => commentTexts rest

/-- Observer: the names of the declarations of an emission sequence, in
order. -/
def declNames : List Emit → List String
  | [] => []
  | Emit.decl name _ _ _ _ _ :: rest => name :: declNames rest
  | _ :: rest => declNames rest

/-- Observer: the value carried by a declaration instruction (0 for any
other instruction). -/
def declValue : Emit → ℚ
  | Emit.decl _ v _ _ _ _ => v
  | _ => 0

/-- Observer: whether an instruction is a declaration. -/
def isDecl : Emit → Bool
  | Emit.decl _ _ _ _ _ _ => true
  | _ => false

/-- Observer: the reset literal bound to a field, when both `resets` and
`resets.reset` are present. -/
def boundResetVal (field : Field) : Option Int :=
  field.resets.bind (fun rs => rs.reset.map (fun r => r.value))

/-- The worked example of the spec: a field with `bitOffset = 3`,
`bitWidth = 5`. -/
def fldC1 : Field := ⟨"FLD", 3, 5, none, []⟩

/-- The worked example of the spec: a register at `addressOffset = 4`. -/
def regC1 : Register := ⟨"REG", "", 4, []⟩

/-- An address map whose two blocks appear in descending `baseAddress`
document order. -/
def mapC2 : AddressMap :=
  ⟨"CAN_Registers", [⟨"B2", 8192, 4096, []⟩, ⟨"B1", 4096, 4096, []⟩]⟩

/-- The worked example of the spec: a block at `baseAddress = 0x1000`
holding one register at `addressOffset = 0x04`. -/
def blkC3 : AddressBlock := ⟨"B", 4096, 4096, [⟨"R", "", 4, []⟩]⟩

/-- An address-bearing map with one block and one register. -/
def mapC4A : AddressMap := ⟨"AMap", [⟨"AB", 4096, 4096, [⟨"AREG", "areg", 0, []⟩]⟩]⟩

/-- A field-bearing map with one block, one register and one 1-bit
field. -/
def mapC4F : AddressMap :=
  ⟨"FMap", [⟨"FB", 0, 4096, [⟨"FREG", "freg", 0, [⟨"FLD1", 0, 1, none, []⟩]⟩]⟩]⟩

/-- The output claim C4 predicts for `create_addrMap_package` when both
maps are supplied: the same framing but with the fields-mode body before
the addresses-mode body. -/
def claimedC4Output : List Emit :=
  packageHeader (some mapC4A) (some mapC4F) "can_pkg4"
  ++ write_mem_map_fields 32 mapC4F
  ++ write_mem_map_addr mapC4A
  ++ [Emit.packageEnd "can_pkg4"]

/-- A field with one enumerated-value set whose entries appear unsorted
in the document. -/
def fldC5 : Field :=
  ⟨"MODE", 0, 2, none, [⟨"mode_vals", [⟨"FAST", 2⟩, ⟨"SLOW", 1⟩]⟩]⟩

/-- A register used to exercise the public `write_reg` entry point. -/
def regC9 : Register := ⟨"CMD", "Command register", 4, []⟩

/-- A block whose `range` does not evenly divide its `baseAddress`
(4096 / 2560 = 1.6). -/
def blkC10 : AddressBlock := ⟨"BTR", 4096, 2560, []⟩

/-- `sortByKey` permutes its input (it models Python's `sorted`). -/
theorem sortByKey_perm {α : Type} (key : α → Int) (l : List α) :
    (sortByKey key l).Perm l :=
  List.perm_insertionSort _ l

/-- The result of `sortByKey` is sorted (non-strictly) by the key. -/
theorem sortByKey_pairwise {α : Type} (key : α → Int) (l : List α) :
    List.Pairwise (fun a b => key a ≤ key b) (sortByKey key l) := by
  haveI : IsTotal α (fun a b => key a ≤ key b) :=
    ⟨fun a b => le_total (key a) (key b)⟩
  haveI : IsTrans α (fun a b => key a ≤ key b) :=
    ⟨fun a b c hab hbc => le_trans hab hbc⟩
  exact List.sorted_insertionSort _ l

/-- With pairwise-distinct keys the result of `sortByKey` is strictly
sorted by the key. -/
theorem sortByKey_pairwise_lt {α : Type} (key : α → Int) (l : List α)
    (hd : (l.map key).Nodup) :
    List.Pairwise (fun a b => key a < key b) (sortByKey key l) := by
  have h1 := sortByKey_pairwise key l
  have hd2 : ((sortByKey key l).map key).Nodup :=
    (((sortByKey_perm key l).map key).symm).nodup hd
  have hne : List.Pairwise (fun a b => key a ≠ key b) (sortByKey key l) :=
    List.pairwise_map.mp hd2
  exact (h1.and hne).imp (fun h => lt_of_le_of_ne h.1 h.2)

/-- With pairwise-distinct keys, `sortByKey` is invariant under
permutation of its input: output order is fixed by the keys alone. -/
theorem sortByKey_eq_of_perm {α : Type} (key : α → Int) (l₁ l₂ : List α)
    (hp : l₁.Perm l₂) (hd : (l₂.map key).Nodup) :
    sortByKey key l₁ = sortByKey key l₂ := by
  have hperm : (sortByKey key l₁).Perm (sortByKey key l₂) :=
    (sortByKey_perm key l₁).trans (hp.trans (sortByKey_perm key l₂).symm)
  have hd₁ : (l₁.map key).Nodup := ((hp.map key).symm).nodup hd
  have hs₁ := sortByKey_pairwise_lt key l₁ hd₁
  have hs₂ := sortByKey_pairwise_lt key l₂ hd
  haveI : IsAntisymm α (fun a b => key a < key b) :=
    ⟨fun a b h h2 => absurd (lt_trans h h2) (lt_irrefl _)⟩
  exact List.eq_of_perm_of_sorted hperm hs₁ hs₂

/-- `commentTexts` distributes over list append. -/
theorem commentTexts_append (l₁ l₂ : List Emit) :
    commentTexts (l₁ ++ l₂) = commentTexts l₁ ++ commentTexts l₂ := by
  induction l₁ with
  | nil => rfl
  | cons e rest ih => cases e <;> simp [commentTexts, ih]

/-- The register-address declarations of a block contain no comments. -/
theorem commentTexts_write_addrbl_regs (block : AddressBlock) :
    commentTexts (write_addrbl_regs block) = [] := by
  unfold write_addrbl_regs
  induction sortByKey Register.addressOffset block.register with
  | nil => rfl
  | cons r t ih =>
    rw [List.map_cons]
    simp only [commentTexts]
    exact ih

/-- C1: for a field of width 1 the Field Offset Calculator emits exactly
one `<field>_IND` constant valued `bitOffset + ((addressOffset * 8) mod
busWidth)`; for width above 1 it emits `<field>_L` at that low index and
`<field>_H` at `low + bitWidth - 1`; and `low ≤ high` holds whenever
`bitWidth ≥ 1`. -/
theorem write_reg_field_spec (busWidth : Int) (field : Field) (reg : Register)
    (hbus : 0 < busWidth) (hw : 1 ≤ field.bitWidth) :
    field.bitOffset + (reg.addressOffset * 8) % busWidth ≤
      field.bitOffset + field.bitWidth - 1 + (reg.addressOffset * 8) % busWidth ∧
    (field.bitWidth = 1 →
      write_reg_field busWidth field reg =
        [Emit.decl (field.name ++ "_IND")
          ((field.bitOffset + (reg.addressOffset * 8) % busWidth : Int) : ℚ)
          "natural" field.bitWidth "constant" 50]) ∧
    (1 < field.bitWidth →
      write_reg_field busWidth field reg =
        [Emit.decl (field.name ++ "_L")
          ((field.bitOffset + (reg.addressOffset * 8) % busWidth : Int) : ℚ)
          "natural" field.bitWidth "constant" 50,
         Emit.decl (field.name ++ "_H")
          ((field.bitOffset + (reg.addressOffset * 8) % busWidth
              + field.bitWidth - 1 : Int) : ℚ)
          "natural" field.bitWidth "constant" 50]) := by
  refine ⟨by omega, ?_, ?_⟩
  · intro h1
    simp only [write_reg_field]
    have hc : field.bitOffset + field.bitWidth - 1 + (reg.addressOffset * 8) % busWidth
        = field.bitOffset + (reg.addressOffset * 8) % busWidth := by omega
    rw [if_pos hc]
    rfl
  · intro h2
    simp only [write_reg_field]
    have h3 : field.bitOffset + field.bitWidth - 1 + (reg.addressOffset * 8) % busWidth
        = field.bitOffset + (reg.addressOffset * 8) % busWidth + field.bitWidth - 1 := by
      omega
    rw [h3]
    have hc : ¬ (field.bitOffset + (reg.addressOffset * 8) % busWidth + field.bitWidth - 1
        = field.bitOffset + (reg.addressOffset * 8) % busWidth) := by omega
    rw [if_neg hc]
    rfl

/-- C1 witness: the spec example — `bitOffset = 3`, `bitWidth = 5`,
register at `addressOffset = 4` on a 32-bit bus — yields `FLD_L = 3` and
`FLD_H = 7`. -/
theorem write_reg_field_spec_witness :
    (write_reg_field 32 fldC1 regC1 =
      [Emit.decl "FLD_L" (3 : ℚ) "natural" 5 "constant" 50,
       Emit.decl "FLD_H" (7 : ℚ) "natural" 5 "constant" 50]) ∧
    (fldC1.bitOffset + (regC1.addressOffset * 8) % 32 ≤
      fldC1.bitOffset + fldC1.bitWidth - 1 + (regC1.addressOffset * 8) % 32 ∧
    (fldC1.bitWidth = 1 →
      write_reg_field 32 fldC1 regC1 =
        [Emit.decl (fldC1.name ++ "_IND")
          ((fldC1.bitOffset + (regC1.addressOffset * 8) % 32 : Int) : ℚ)
          "natural" fldC1.bitWidth "constant" 50]) ∧
    (1 < fldC1.bitWidth →
      write_reg_field 32 fldC1 regC1 =
        [Emit.decl (fldC1.name ++ "_L")
          ((fldC1.bitOffset + (regC1.addressOffset * 8) % 32 : Int) : ℚ)
          "natural" fldC1.bitWidth "constant" 50,
         Emit.decl (fldC1.name ++ "_H")
          ((fldC1.bitOffset + (regC1.addressOffset * 8) % 32
              + fldC1.bitWidth - 1 : Int) : ℚ)
          "natural" fldC1.bitWidth "constant" 50])) :=
  ⟨by decide, write_reg_field_spec 32 fldC1 regC1 (by decide) (by decide)⟩

/-- C6: `write_res_vals` emits exactly one `<field>_RSTVAL` constant
holding the bound reset literal, typed with the field's bit width, iff
the field has a `resets` object carrying a bound reset; otherwise it
emits nothing and raises no error. -/
theorem write_res_vals_spec (field : Field) :
    write_res_vals field =
      ((boundResetVal field).map (fun v =>
        Emit.decl (field.name ++ "_RSTVAL") (v : ℚ) "std_logic" field.bitWidth
          "constant" 50)).toList ∧
    (write_res_vals field).length =
      (if (boundResetVal field).isSome then 1 else 0) := by
  cases h : field.resets with
  | none => simp [write_res_vals, boundResetVal, h]
  | some rs =>
    cases h2 : rs.reset with
    | none => simp [write_res_vals, boundResetVal, h, h2]
    | some r => simp [write_res_vals, boundResetVal, h, h2]

/-- C7: with neither map supplied, `create_addrMap_package` still emits
the full header/footer framing (dividers, autogenerated comment, include
directives, package open and close) but no declarations, and no error is
raised. -/
theorem create_addrMap_package_no_maps (busWidth : Int) (name : String) :
    create_addrMap_package none none busWidth name =
      [Emit.nl, Emit.commLine (some 0),
       Emit.comment "This file is autogenerated, DO NOT EDIT!" 0 true none,
       Emit.commLine (some 0), Emit.nl,
       Emit.includes ["std_logic_1164.all"], Emit.nl,
       Emit.packageStart name, Emit.nl, Emit.packageEnd name] ∧
    (create_addrMap_package none none busWidth name).filter isDecl = [] := by
  constructor <;> rfl

/-- C8: the Package Assembler is deterministic — two invocations of
`create_addrMap_package` on equal inputs produce identical emission
sequences (the traversal is a pure function of the input tree). -/
theorem create_addrMap_package_deterministic (a₁ a₂ f₁ f₂ : Option AddressMap)
    (w₁ w₂ : Int) (n₁ n₂ : String)
    (ha : a₁ = a₂) (hf : f₁ = f₂) (hw : w₁ = w₂) (hn : n₁ = n₂) :
    create_addrMap_package a₁ f₁ w₁ n₁ = create_addrMap_package a₂ f₂ w₂ n₂ := by
  subst ha; subst hf; subst hw; subst hn; rfl

/-- C8 witness: determinism at a concrete invocation. -/
theorem create_addrMap_package_deterministic_witness :
    create_addrMap_package none none 32 "can_pkg" =
      create_addrMap_package none none 32 "can_pkg" :=
  create_addrMap_package_deterministic none none none none 32 32 "can_pkg"
    "can_pkg" rfl rfl rfl rfl

/-- C9: the public `write_reg` entry point always raises a `TypeError`
and emits nothing: it passes `self` as an extra positional argument to
`__write_reg`, which takes only a register plus three switches. -/
theorem write_reg_raises_type_error (busWidth : Int) (reg : Register)
    (writeFields writeRstVal writeEnums : Bool) :
    write_reg busWidth reg writeFields writeRstVal writeEnums =
      Except.error "TypeError: __write_reg takes 5 positional arguments but 6 were given" ∧
    ∀ out : List Emit,
      write_reg busWidth reg writeFields writeRstVal writeEnums ≠ Except.ok out := by
  have h : write_reg busWidth reg writeFields writeRstVal writeEnums =
      Except.error "TypeError: __write_reg takes 5 positional arguments but 6 were given" :=
    rfl
  exact ⟨h, fun out hok => by rw [h] at hok; exact Except.noConfusion hok⟩

/-- C9 witness: the failure at a concrete register and switch setting. -/
theorem write_reg_raises_type_error_witness :
    write_reg 32 regC9 true false true =
      Except.error "TypeError: __write_reg takes 5 positional arguments but 6 were given" ∧
    ∀ out : List Emit, write_reg 32 regC9 true false true ≠ Except.ok out :=
  write_reg_raises_type_error 32 regC9 true false true

/-- C2 counterexample: for a map whose blocks appear in descending
`baseAddress` document order, `write_mem_map_addr` emits the blocks in
that document order (B2 before B1), not in the ascending `baseAddress`
order the claim asserts. -/
theorem write_mem_map_addr_order_counterexample :
    commentTexts (write_mem_map_addr mapC2) =
      ["Address block: B2", "Address block: B1"] ∧
    ¬ commentTexts (write_mem_map_addr mapC2) =
        (sortByKey AddressBlock.baseAddress mapC2.addressBlock).map (fun b =>
          "Address block: " ++ b.name) := by
  constructor
  · decide
  · decide

/-- C2 amended: `write_mem_map_addr` emits the address blocks in
document order — the order in which they appear in the input tree — with
no reordering by `baseAddress`. -/
theorem write_mem_map_addr_document_order (m : AddressMap) :
    commentTexts (write_mem_map_addr m) =
      m.addressBlock.map (fun b => "Address block: " ++ b.name) := by
  unfold write_mem_map_addr
  induction m.addressBlock with
  | nil => rfl
  | cons b t ih =>
    rw [List.flatMap_cons, commentTexts_append, ih, List.map_cons]
    rw [commentTexts_append, commentTexts_append, commentTexts_write_addrbl_regs]
    rfl

/-- C3: `write_addrbl_regs` emits exactly one 12-bit `<register>_ADR`
constant per register with value `addressOffset + baseAddress`; for a
block whose registers have pairwise-distinct offsets the emitted values
are strictly increasing and the output is independent of the input order
of the register collection. -/
theorem write_addrbl_regs_spec (block : AddressBlock)
    (hd : (block.register.map Register.addressOffset).Nodup) :
    (write_addrbl_regs block).Perm (block.register.map (fun reg =>
      Emit.decl (reg.name ++ "_ADR")
        ((reg.addressOffset + block.baseAddress : Int) : ℚ) "std_logic" 12
        "constant" 80)) ∧
    List.Chain' (fun x y => x < y) ((write_addrbl_regs block).map declValue) ∧
    ∀ regs2 : List Register, regs2.Perm block.register →
      write_addrbl_regs ⟨block.name, block.baseAddress, block.range, regs2⟩ =
        write_addrbl_regs block := by
  refine ⟨?_, ?_, ?_⟩
  · exact (sortByKey_perm Register.addressOffset block.register).map _
  · rw [List.chain'_iff_pairwise]
    unfold write_addrbl_regs
    rw [List.map_map, List.pairwise_map]
    have hlt := sortByKey_pairwise_lt Register.addressOffset block.register hd
    refine hlt.imp ?_
    intro a b hab
    simp only [Function.comp_apply, declValue]
    have h2 : a.addressOffset + block.baseAddress <
        b.addressOffset + block.baseAddress := by omega
    exact_mod_cast h2
  · intro regs2 hperm
    simp only [write_addrbl_regs]
    rw [sortByKey_eq_of_perm Register.addressOffset regs2 block.register hperm hd]

/-- C3 witness: the spec example — a register at offset `0x04` in a
block based at `0x1000` yields the single constant `R_ADR = 0x1004`. -/
theorem write_addrbl_regs_spec_witness :
    (write_addrbl_regs blkC3 =
      [Emit.decl "R_ADR" (4100 : ℚ) "std_logic" 12 "constant" 80]) ∧
    ((write_addrbl_regs blkC3).Perm (blkC3.register.map (fun reg =>
      Emit.decl (reg.name ++ "_ADR")
        ((reg.addressOffset + blkC3.baseAddress : Int) : ℚ) "std_logic" 12
        "constant" 80)) ∧
    List.Chain' (fun x y => x < y) ((write_addrbl_regs blkC3).map declValue) ∧
    ∀ regs2 : List Register, regs2.Perm blkC3.register →
      write_addrbl_regs ⟨blkC3.name, blkC3.baseAddress, blkC3.range, regs2⟩ =
        write_addrbl_regs blkC3) :=
  ⟨by decide, write_addrbl_regs_spec blkC3 (by decide)⟩

/-- C4 counterexample: with both maps supplied, the body emitted by
`create_addrMap_package` is not fields-mode-then-addresses-mode — at a
concrete input the declaration names come out as the address constants
first, refuting the claimed ordering. -/
theorem create_addrMap_package_fields_first_counterexample :
    create_addrMap_package (some mapC4A) (some mapC4F) 32 "can_pkg4" ≠
      claimedC4Output :=
  fun h => absurd (congrArg declNames h) (by decide)

/-- C4 amended: in `create_addrMap_package` the addresses-mode body is
emitted before the fields-mode body; the fields-before-addresses order
holds only in the separate `write_mem_map_both` entry point. -/
theorem create_addrMap_package_addresses_first (amap fmap : AddressMap)
    (busWidth : Int) (name : String) :
    create_addrMap_package (some amap) (some fmap) busWidth name =
      packageHeader (some amap) (some fmap) name
      ++ write_mem_map_addr amap
      ++ write_mem_map_fields busWidth fmap
      ++ [Emit.packageEnd name] ∧
    write_mem_map_both busWidth amap fmap =
      write_mem_map_fields busWidth fmap ++ write_mem_map_addr amap :=
  ⟨rfl, rfl⟩

/-- C5: `write_reg_enums` emits one constant per enumerated value, named
by the value's own name and typed with the owning field's bit width;
within each set with distinct values the constants are strictly
ascending by value; an empty enumerated-value collection contributes
nothing and raises no error. -/
theorem write_reg_enums_spec (field : Field)
    (hd : ∀ es ∈ field.enumeratedValues,
      (es.enumeratedValue.map EnumeratedValue.value).Nodup) :
    (field.enumeratedValues = [] → write_reg_enums field = []) ∧
    (field.enumeratedValues ≠ [] →
      write_reg_enums field =
        Emit.nl ::
        Emit.comment ("\"" ++ field.name ++ "\" field enumerated values") 2 true none ::
        field.enumeratedValues.flatMap (enumDecls field)) ∧
    ∀ es ∈ field.enumeratedValues,
      (enumDecls field es).Perm (es.enumeratedValue.map (fun e =>
        Emit.decl e.name (e.value : ℚ) "std_logic" field.bitWidth "constant" 50)) ∧
      List.Chain' (fun x y => x < y) ((enumDecls field es).map declValue) := by
  refine ⟨?_, ?_, ?_⟩
  · intro h
    simp [write_reg_enums, h]
  · intro h
    rw [write_reg_enums, if_neg h]
  · intro es hes
    constructor
    · exact (sortByKey_perm EnumeratedValue.value es.enumeratedValue).map _
    · rw [List.chain'_iff_pairwise]
      unfold enumDecls
      rw [List.map_map, List.pairwise_map]
      have hlt := sortByKey_pairwise_lt EnumeratedValue.value es.enumeratedValue
        (hd es hes)
      refine hlt.imp ?_
      intro a b hab
      simp only [Function.comp_apply, declValue]
      exact_mod_cast hab

/-- C5 witness: a set listed as FAST=2, SLOW=1 in the document comes out
as SLOW=1 then FAST=2, each typed with the field's width 2. -/
theorem write_reg_enums_spec_witness :
    (write_reg_enums fldC5 =
      [Emit.nl,
       Emit.comment "\"MODE\" field enumerated values" 2 true none,
       Emit.decl "SLOW" (1 : ℚ) "std_logic" 2 "constant" 50,
       Emit.decl "FAST" (2 : ℚ) "std_logic" 2 "constant" 50]) ∧
    ((fldC5.enumeratedValues = [] → write_reg_enums fldC5 = []) ∧
    (fldC5.enumeratedValues ≠ [] →
      write_reg_enums fldC5 =
        Emit.nl ::
        Emit.comment ("\"" ++ fldC5.name ++ "\" field enumerated values") 2 true none ::
        fldC5.enumeratedValues.flatMap (enumDecls fldC5)) ∧
    ∀ es ∈ fldC5.enumeratedValues,
      (enumDecls fldC5 es).Perm (es.enumeratedValue.map (fun e =>
        Emit.decl e.name (e.value : ℚ) "std_logic" fldC5.bitWidth "constant" 50)) ∧
      List.Chain' (fun x y => x < y) ((enumDecls fldC5 es).map declValue)) :=
  ⟨by decide, write_reg_enums_spec fldC5 (by decide)⟩

/-- C10: `write_addrbl_head` emits the `<block>_BLOCK` constant with the
exact true (non-floored) quotient `baseAddress / range` and the
hardcoded bit width 4; when `range` does not divide `baseAddress` that
value is not an integer. -/
theorem write_addrbl_head_spec (block : AddressBlock)
    (hr : 0 < block.range) (hnd : ¬ block.range ∣ block.baseAddress) :
    write_addrbl_head block =
      [Emit.commLine none,
       Emit.comment ("Address block: " ++ block.name) 2 false none,
       Emit.commLine none,
       Emit.decl (block.name ++ "_BLOCK")
         ((block.baseAddress : ℚ) / (block.range : ℚ)) "std_logic" 4 "constant" 80,
       Emit.nl] ∧
    ∀ z : ℤ, (block.baseAddress : ℚ) / (block.range : ℚ) ≠ (z : ℚ) := by
  refine ⟨rfl, ?_⟩
  intro z hz
  apply hnd
  have hr0 : (block.range : ℚ) ≠ 0 := by
    exact_mod_cast hr.ne'
  have h1 : (block.baseAddress : ℚ) = (z : ℚ) * (block.range : ℚ) :=
    (div_eq_iff hr0).mp hz
  have h2 : block.baseAddress = z * block.range := by exact_mod_cast h1
  exact ⟨z, by rw [h2, Int.mul_comm]⟩

/-- C10 witness: a block with `baseAddress = 4096` and `range = 2560`
gets a `_BLOCK` constant valued 4096/2560 = 1.6, not an integer, with
bit width 4. -/
theorem write_addrbl_head_spec_witness :
    (write_addrbl_head blkC10 =
      [Emit.commLine none,
       Emit.comment ("Address block: " ++ blkC10.name) 2 false none,
       Emit.commLine none,
       Emit.decl (blkC10.name ++ "_BLOCK")
         ((blkC10.baseAddress : ℚ) / (blkC10.range : ℚ)) "std_logic" 4 "constant" 80,
       Emit.nl] ∧
    ∀ z : ℤ, (blkC10.baseAddress : ℚ) / (blkC10.range : ℚ) ≠ (z : ℚ)) :=
  write_addrbl_head_spec blkC10 (by decide) (by decide)

end Vhdl
